import Mathlib

/-!
Cross-reference list models (ui/xreflist.h)

A shallow embedding of the item classes (XrefItem, XrefHeader and its four
subclasses) and of the two item models (CrossReferenceTreeModel,
CrossReferenceTableModel) declared in ui/xreflist.h.

Conventions of the embedding
* A C++ pointer to a node of the hierarchy is a value of `XrefPtr`: the place
  of the node in the hierarchy (null is `none` of `Option XrefPtr`).
* A reference counted host object (FunctionRef, ArchitectureRef) is an
  `Option`: `none` is the null reference.
* A method that may write a `mutable` field is a state passing function
  returning the result together with the item after the call.
* `int` and `uint64_t` values are `Int` and `Nat`; no arithmetic is done on
  them and container sizes are taken to fit an `int`.
-/

namespace XrefList

/-! ## Data model -/

/-- XrefItem::XrefDirection (xreflist.h lines 26-30). -/
inductive XrefDirection where
  | Forward
  | Backward
deriving DecidableEq, Repr

/-- XrefItem::XrefType (xreflist.h lines 32-37). -/
inductive XrefType where
  | DataXrefType
  | CodeXrefType
  | VariableXrefType
deriving DecidableEq, Repr

/-- Enumerator value of an XrefType (C++ numbers enumerators from 0). -/
def XrefType.toInt : XrefType → Int
  | .DataXrefType => 0
  | .CodeXrefType => 1
  | .VariableXrefType => 2

/-- Host function object behind a FunctionRef (binaryninjaapi.h, not part of
this header): its identity `ptr` (the address of the object) and the value
`start` that GetStart() returns. -/
structure FunctionObj where
  ptr : Nat
  start : Nat
deriving DecidableEq, Repr

/-- FunctionRef is Ref<Function>; the null reference is `none`. -/
abbrev FunctionRef := Option FunctionObj

/-- Host architecture object behind an ArchitectureRef, known by identity. -/
structure ArchitectureObj where
  ptr : Nat
deriving DecidableEq, Repr

/-- ArchitectureRef is Ref<Architecture>; the null reference is `none`. -/
abbrev ArchitectureRef := Option ArchitectureObj

/-- Address of a node of the hierarchy. The root owns its category nodes in a
map keyed by an int, a code category owns its function headers in a map keyed
by FunctionRef, and leaf items live in the vector m_refs of the tree model, so
a node is named by the keys on the way to it:
`root`, `category ord`, `function ord f` (the header stored under key `f` in
the category stored under key `ord`), `item i` (the address of m_refs[i]). -/
inductive XrefPtr where
  | root
  | category (ord : Int)
  | function (ord : Int) (f : FunctionRef)
  | item (i : Nat)
deriving DecidableEq, Repr

/-- Handle of the model/view protocol (QModelIndex): an opaque reference to a
node, or the invalid handle `none` (what QModelIndex() constructs). -/
abbrev QModelIndex := Option XrefPtr

/-- QModelIndex::isValid. -/
def QModelIndex.isValid (i : QModelIndex) : Bool := i.isSome

/-- Fields of class XrefItem (xreflist.h lines 40-46). m_parentItem is an
XrefHeader pointer; m_parentItem and m_size are declared `mutable`. -/
structure XrefItem where
  m_func : FunctionRef
  m_arch : ArchitectureRef
  m_addr : Nat
  m_type : XrefType
  m_direction : XrefDirection
  m_parentItem : Option XrefPtr
  m_size : Int
deriving DecidableEq, Repr

namespace XrefItem

/-- XrefDirection direction() const { return m_direction; } -/
def direction (it : XrefItem) : XrefDirection × XrefItem := (it.m_direction, it)

/-- FunctionRef func() const { return m_func; } -/
def func (it : XrefItem) : FunctionRef × XrefItem := (it.m_func, it)

/-- ArchitectureRef arch() const { return m_arch; } -/
def arch (it : XrefItem) : ArchitectureRef × XrefItem := (it.m_arch, it)

/-- uint64_t addr() const { return m_addr; } -/
def addr (it : XrefItem) : Nat × XrefItem := (it.m_addr, it)

/-- XrefType type() const { return m_type; } -/
def type (it : XrefItem) : XrefType × XrefItem := (it.m_type, it)

/-- int size() const { return m_size; } -/
def size (it : XrefItem) : Int × XrefItem := (it.m_size, it)

/-- void setSize(int size) const { m_size = size; } -/
def setSize (it : XrefItem) (size : Int) : Unit × XrefItem :=
  ((), { it with m_size := size })

/-- void setParent(XrefHeader* parent) const { m_parentItem = parent; } -/
def setParent (it : XrefItem) (parent : Option XrefPtr) : Unit × XrefItem :=
  ((), { it with m_parentItem := parent })

/-- virtual XrefItem* parent() const { return (XrefItem*)m_parentItem; } -/
def parent (it : XrefItem) : Option XrefPtr × XrefItem := (it.m_parentItem, it)

/-- virtual XrefItem* child(int) const { return nullptr; } -/
def child (_it : XrefItem) (_i : Int) : Option XrefPtr := none

/-- virtual int childCount() const { return 0; } -/
def childCount (_it : XrefItem) : Int := 0

end XrefItem

/-- The claim that size() is a lazily computing read, in the words of the
specification: when the cached size of `it` is not yet the byte size
`byteSize it`, the first call computes that size, returns it and stores it in
the cached field, and a later call returns the stored value. -/
def SizeComputedOnFirstAccess (byteSize : XrefItem → Int) (it : XrefItem) : Prop :=
  it.m_size ≠ byteSize it →
    (XrefItem.size it).1 = byteSize it ∧
    (XrefItem.size it).2.m_size = byteSize it ∧
    (XrefItem.size (XrefItem.size it).2).1 = (XrefItem.size it).2.m_size

/-- An item that was just constructed from a reference source: a code
reference at 0x1000 in a function starting at 0x1000, size not computed. -/
def freshItem : XrefItem where
  m_func := some ⟨1, 4096⟩
  m_arch := some ⟨1⟩
  m_addr := 4096
  m_type := .CodeXrefType
  m_direction := .Forward
  m_parentItem := none
  m_size := 0

/-- Fields of class XrefHeader on top of its XrefItem base. The display name
(QString m_name) is a host string that no operation below reads and is not
represented. -/
structure XrefHeader where
  base : XrefItem
deriving DecidableEq, Repr

/-- Fields of class XrefFunctionHeader (xreflist.h lines 96-97): the deque of
item pointers and its own m_func, which hides the m_func of the base. A
pointer to a leaf item is kept as the position of the item in the vector
m_refs of the tree model. -/
structure XrefFunctionHeader where
  hdr : XrefHeader
  m_refs : List Nat
  m_func : FunctionRef
deriving DecidableEq, Repr

namespace XrefFunctionHeader

/-- virtual int childCount() const override { return m_refs.size(); } -/
def childCount (h : XrefFunctionHeader) : Int := h.m_refs.length

/-- virtual uint64_t addr() const { return m_func->GetStart(); }
The arrow dereferences the object behind m_func; on the null reference there
is no object to ask and the call does not return a value (`none`). -/
def addr (h : XrefFunctionHeader) : Option Nat :=
  match h.m_func with
  | none => none
  | some f => some f.start

end XrefFunctionHeader

/-! ## std::map -/

/-- Model of std::map: the key/value entries in iteration order, no key
occurring twice. -/
structure StdMap (κ : Type) (ν : Type) where
  entries : List (κ × ν)
  nodupKeys : (entries.map Prod.fst).Nodup

/-- First value stored under key `k` in a list of entries. -/
def lookupEntry {κ ν : Type} [DecidableEq κ] (k : κ) : List (κ × ν) → Option ν
  | [] => none
  | e :: es => if e.1 = k then some e.2 else lookupEntry k es

/-- Overwrite the value stored under key `k`, keeping the entry in place. -/
def replaceEntry {κ ν : Type} [DecidableEq κ] (k : κ) (v : ν) :
    List (κ × ν) → List (κ × ν)
  | [] => []
  | e :: es => if e.1 = k then (k, v) :: es else e :: replaceEntry k v es

/-- Put a new entry in front of the first entry with a greater key. -/
def insertEntry {κ ν : Type} (lt : κ → κ → Bool) (k : κ) (v : ν) :
    List (κ × ν) → List (κ × ν)
  | [] => [(k, v)]
  | e :: es => if lt k e.1 then (k, v) :: e :: es else e :: insertEntry lt k v es

namespace StdMap

variable {κ ν : Type}

/-- The empty map. -/
def empty : StdMap κ ν := ⟨[], List.nodup_nil⟩

/-- Keys in iteration order. -/
def keys (m : StdMap κ ν) : List κ := m.entries.map Prod.fst

/-- Member size() of std::map. -/
def size (m : StdMap κ ν) : Nat := m.entries.length

/-- Member find of std::map, returning the mapped value. -/
def find? [DecidableEq κ] (m : StdMap κ ν) (k : κ) : Option ν :=
  lookupEntry k m.entries

/-- Store `v` under `k`: the entry of an existing key is overwritten in place,
a new key is inserted at its place in the key order `lt`. -/
def set [DecidableEq κ] (lt : κ → κ → Bool) (m : StdMap κ ν) (k : κ) (v : ν) :
    StdMap κ ν :=
  if h : k ∈ m.entries.map Prod.fst then
    ⟨replaceEntry k v m.entries, by
      have keep : ∀ es : List (κ × ν),
          (replaceEntry k v es).map Prod.fst = es.map Prod.fst := by
        intro es
        induction es with
        | nil => rfl
        | cons e es ih =>
          by_cases h : e.1 = k
          · simp [replaceEntry, h]
          · simp [replaceEntry, h, ih]
      rw [keep]
      exact m.nodupKeys⟩
  else
    ⟨insertEntry lt k v m.entries, by
      have ins : ∀ es : List (κ × ν),
          ((insertEntry lt k v es).map Prod.fst).Perm (k :: es.map Prod.fst) := by
        intro es
        induction es with
        | nil => simp [insertEntry]
        | cons e es ih =>
          by_cases h : lt k e.1 = true
          · simp [insertEntry, h]
          · simp only [insertEntry, h, Bool.false_eq_true, if_false, List.map_cons]
            exact (List.Perm.cons _ ih).trans (List.Perm.swap _ _ _)
      exact (ins m.entries).nodup_iff.mpr (List.nodup_cons.mpr ⟨h, m.nodupKeys⟩)⟩

end StdMap

/-- Element `i` of a container indexed by an int, none when out of range. -/
def nth? {α : Type} (l : List α) (i : Int) : Option α :=
  if i < 0 then none else l[i.toNat]?

/-- Order of FunctionRef keys: Ref compares the addresses of the objects, the
null reference being the least. -/
def FunctionRef.lt : FunctionRef → FunctionRef → Bool
  | none, none => false
  | none, some _ => true
  | some _, none => false
  | some a, some b => decide (a.ptr < b.ptr)

/-! ## Grouping nodes -/

/-- Fields of class XrefCodeReferences (xreflist.h line 111). The map owns
the function headers its values point to. -/
structure XrefCodeReferences where
  hdr : XrefHeader
  m_refs : StdMap FunctionRef XrefFunctionHeader

/-- Fields of class XrefDataReferences (xreflist.h line 125). -/
structure XrefDataReferences where
  hdr : XrefHeader
  m_refs : List Nat
deriving DecidableEq, Repr

/-- Dynamic type of a category node held by the root through an XrefHeader
pointer. -/
inductive XrefCategory where
  | code (c : XrefCodeReferences)
  | data (d : XrefDataReferences)

/-- Fields of class XrefRoot (xreflist.h line 138). The map owns the category
nodes its values point to. -/
structure XrefRoot where
  hdr : XrefHeader
  m_refs : StdMap Int XrefCategory

/-- virtual int childCount() const override { return m_refs.size(); } -/
def XrefCodeReferences.childCount (c : XrefCodeReferences) : Int := c.m_refs.size

/-- virtual int childCount() const override { return m_refs.size(); } -/
def XrefDataReferences.childCount (d : XrefDataReferences) : Int := d.m_refs.length

/-- virtual int childCount() const override { return m_refs.size(); } -/
def XrefRoot.childCount (r : XrefRoot) : Int := r.m_refs.size

/-- Base class part of a category node. -/
def XrefCategory.hdr : XrefCategory → XrefHeader
  | .code c => c.hdr
  | .data d => d.hdr

/-- Virtual call childCount() on a category node. -/
def XrefCategory.childCount : XrefCategory → Int
  | .code c => c.childCount
  | .data d => d.childCount

/-! ## Building the hierarchy

The member functions below are declared in xreflist.h and defined in
xreflist.cpp, which is not part of the sources; they follow the
specification (sections 3, 4.2 and 4.3). The vector of leaf items is passed
along as `mem`: appendChild writes the parent back-link of the item it is
given. -/

/-- Modelled from the spec: the rule that sends an item to its category, left
open by the specification (section 4.2: the category is determined by the
type, the root map is keyed by a small ordinal). `ordinal t` is the key of the
category of items of type `t` in the root map, `byFunction t` tells whether a
category created for such an item groups by function (XrefCodeReferences) or
not (XrefDataReferences). -/
structure CategoryPolicy where
  ordinal : XrefType → Int
  byFunction : XrefType → Bool

/-- Modelled from the spec: the policy with exactly one code category and one
data category: data references go to the data category, keyed by the
enumerator of DataXrefType, every other item goes to the code category, keyed
by the enumerator of CodeXrefType. -/
def defaultPolicy : CategoryPolicy where
  ordinal := fun t =>
    if t = XrefType.DataXrefType then XrefType.DataXrefType.toInt
    else XrefType.CodeXrefType.toInt
  byFunction := fun t => decide (t ≠ XrefType.DataXrefType)

/-- Modelled from the spec: constructor XrefHeader(name, type, parent)
(xreflist.cpp absent): a grouping node of the given type with the given
parent back-reference and no function, address or size of its own. -/
def XrefHeader.create (type : XrefType) (parent : Option XrefPtr) : XrefHeader :=
  ⟨{ m_func := none, m_arch := none, m_addr := 0, m_type := type,
     m_direction := .Forward, m_parentItem := parent, m_size := 0 }⟩

/-- The call ref->setParent(parent) on the leaf item at position `ref` of the
vector `mem`. -/
def setParentAt (mem : List XrefItem) (ref : Nat) (parent : XrefPtr) : List XrefItem :=
  mem.modify (fun it => (it.setParent (some parent)).2) ref

/-- Modelled from the spec: XrefFunctionHeader::appendChild (xreflist.cpp
absent): the item is appended to the ordered sequence of the group and its
parent back-link is set to the group (`self` is the address of the group). -/
def XrefFunctionHeader.appendChild (self : XrefPtr) (h : XrefFunctionHeader)
    (ref : Nat) (mem : List XrefItem) : XrefFunctionHeader × List XrefItem :=
  ({ h with m_refs := h.m_refs ++ [ref] }, setParentAt mem ref self)

/-- Modelled from the spec: constructor XrefFunctionHeader(func, parent,
child) (xreflist.cpp absent): a group for `func` under `parent` holding the
item `child`. -/
def XrefFunctionHeader.create (func : FunctionRef) (parent self : XrefPtr)
    (child : Nat) (mem : List XrefItem) : XrefFunctionHeader × List XrefItem :=
  XrefFunctionHeader.appendChild self
    ⟨XrefHeader.create .CodeXrefType (some parent), [], func⟩ child mem

/-- Modelled from the spec: XrefDataReferences::appendChild (xreflist.cpp
absent): the item is appended to the ordered sequence of the category, with
no grouping by function, and its parent back-link is set to the category. -/
def XrefDataReferences.appendChild (self : XrefPtr) (d : XrefDataReferences)
    (ref : Nat) (mem : List XrefItem) : XrefDataReferences × List XrefItem :=
  ({ d with m_refs := d.m_refs ++ [ref] }, setParentAt mem ref self)

/-- Modelled from the spec: XrefCodeReferences::appendChild (xreflist.cpp
absent): look up the function group keyed by the owning function of the item
or create it, and append the item under that group. `ord` is the key of this
category in the root, so its address is `category ord`. An item without
owning function is keyed by the null reference. A position outside the vector
would be a dangling pointer; setModelData never passes one. -/
def XrefCodeReferences.appendChild (ord : Int) (c : XrefCodeReferences)
    (ref : Nat) (mem : List XrefItem) : XrefCodeReferences × List XrefItem :=
  match mem[ref]? with
  | none => (c, mem)
  | some it =>
    let f := (it.func).1
    match c.m_refs.find? f with
    | some fh =>
      let r := fh.appendChild (.function ord f) ref mem
      ({ c with m_refs := c.m_refs.set FunctionRef.lt f r.1 }, r.2)
    | none =>
      let r := XrefFunctionHeader.create f (.category ord) (.function ord f) ref mem
      ({ c with m_refs := c.m_refs.set FunctionRef.lt f r.1 }, r.2)

/-- Virtual call appendChild(ref) on a category node stored under key `ord`. -/
def XrefCategory.appendChild (ord : Int) (cat : XrefCategory)
    (ref : Nat) (mem : List XrefItem) : XrefCategory × List XrefItem :=
  match cat with
  | .code c => let r := c.appendChild ord ref mem; (.code r.1, r.2)
  | .data d => let r := d.appendChild (.category ord) ref mem; (.data r.1, r.2)

/-- Modelled from the spec: the category node the root creates on the first
item of a kind (constructors XrefCodeReferences(parent) and
XrefDataReferences(parent), xreflist.cpp absent). -/
def XrefCategory.create (byFunction : Bool) : XrefCategory :=
  if byFunction then
    .code ⟨XrefHeader.create .CodeXrefType (some .root), StdMap.empty⟩
  else
    .data ⟨XrefHeader.create .DataXrefType (some .root), []⟩

/-- Modelled from the spec: constructor XrefRoot() (xreflist.cpp absent): a
root without parent and without categories. -/
def XrefRoot.create : XrefRoot :=
  ⟨XrefHeader.create .CodeXrefType none, StdMap.empty⟩

/-- Modelled from the spec: XrefRoot::appendChild (xreflist.cpp absent):
determine the category of the item by its type, create the category node on
the first item of the kind, and append the item under it. A position outside
the vector would be a dangling pointer; setModelData never passes one. -/
def XrefRoot.appendChild (pol : CategoryPolicy) (r : XrefRoot)
    (ref : Nat) (mem : List XrefItem) : XrefRoot × List XrefItem :=
  match mem[ref]? with
  | none => (r, mem)
  | some it =>
    let t := (it.type).1
    let ord := pol.ordinal t
    match r.m_refs.find? ord with
    | some cat =>
      let res := cat.appendChild ord ref mem
      ({ r with m_refs := r.m_refs.set (fun a b => decide (a < b)) ord res.1 }, res.2)
    | none =>
      let res := (XrefCategory.create (pol.byFunction t)).appendChild ord ref mem
      ({ r with m_refs := r.m_refs.set (fun a b => decide (a < b)) ord res.1 }, res.2)

/-! ## Tree model -/

/-- State of CrossReferenceTreeModel that the index functions read: the root
of the hierarchy (m_rootItem, owned) and the vector of leaf items (m_refs);
m_owner and m_data are host objects. -/
structure CrossReferenceTreeModel where
  m_rootItem : XrefRoot
  m_refs : List XrefItem

/-- Modelled from the spec: the loop of setModelData (xreflist.cpp absent):
root and item vector after the first `k` items of the vector were appended to
an empty root, in the order of the vector. -/
def appendFirst (pol : CategoryPolicy) (refs : List XrefItem) :
    Nat → XrefRoot × List XrefItem
  | 0 => (XrefRoot.create, refs)
  | k + 1 =>
    XrefRoot.appendChild pol (appendFirst pol refs k).1 k (appendFirst pol refs k).2

namespace CrossReferenceTreeModel

/-- Modelled from the spec: CrossReferenceTreeModel::setModelData
(xreflist.cpp absent): the hierarchy is rebuilt from scratch from the new
flat list, one appendChild per item in list order. The selection model and
the selectionUpdated flag belong to the view and are not represented. -/
def setModelData (pol : CategoryPolicy) (_old : CrossReferenceTreeModel)
    (refs : List XrefItem) : CrossReferenceTreeModel :=
  ⟨(appendFirst pol refs refs.length).1, (appendFirst pol refs refs.length).2⟩

/-- The model before any data was set. -/
def init : CrossReferenceTreeModel := ⟨XrefRoot.create, []⟩

end CrossReferenceTreeModel

/-- Modelled from the spec: XrefRoot::child (xreflist.cpp absent): the
category at position `i` of the map. -/
def XrefRoot.child (r : XrefRoot) (i : Int) : Option XrefPtr :=
  (nth? r.m_refs.entries i).map (fun e => XrefPtr.category e.1)

/-- Modelled from the spec: XrefCodeReferences::child (xreflist.cpp absent):
the function group at position `i` of the map. -/
def XrefCodeReferences.child (ord : Int) (c : XrefCodeReferences) (i : Int) :
    Option XrefPtr :=
  (nth? c.m_refs.entries i).map (fun e => XrefPtr.function ord e.1)

/-- Modelled from the spec: XrefDataReferences::child (xreflist.cpp absent):
the item at position `i` of the sequence. -/
def XrefDataReferences.child (d : XrefDataReferences) (i : Int) : Option XrefPtr :=
  (nth? d.m_refs i).map XrefPtr.item

/-- Modelled from the spec: XrefFunctionHeader::child (xreflist.cpp absent):
the item at position `i` of the sequence. -/
def XrefFunctionHeader.child (h : XrefFunctionHeader) (i : Int) : Option XrefPtr :=
  (nth? h.m_refs i).map XrefPtr.item

/-- Virtual call child(i) on a category node stored under key `ord`. -/
def XrefCategory.child (ord : Int) (cat : XrefCategory) (i : Int) : Option XrefPtr :=
  match cat with
  | .code c => c.child ord i
  | .data d => d.child i

namespace CrossReferenceTreeModel

/-- The function header behind the address `function ord f`, if there is one. -/
def functionAt (m : CrossReferenceTreeModel) (ord : Int) (f : FunctionRef) :
    Option XrefFunctionHeader :=
  match m.m_rootItem.m_refs.find? ord with
  | some (.code c) => c.m_refs.find? f
  | _ => none

/-- Virtual call p->child(i) on the node behind the address `p` (null when
there is no such node or no such child). -/
def childOf (m : CrossReferenceTreeModel) (p : XrefPtr) (i : Int) : Option XrefPtr :=
  match p with
  | .root => m.m_rootItem.child i
  | .category ord =>
    match m.m_rootItem.m_refs.find? ord with
    | some cat => cat.child ord i
    | none => none
  | .function ord f =>
    match m.functionAt ord f with
    | some fh => fh.child i
    | none => none
  | .item j =>
    match m.m_refs[j]? with
    | some it => it.child i
    | none => none

/-- Virtual call p->parent() on the node behind the address `p`. -/
def parentOf (m : CrossReferenceTreeModel) (p : XrefPtr) : Option XrefPtr :=
  match p with
  | .root => (m.m_rootItem.hdr.base.parent).1
  | .category ord =>
    match m.m_rootItem.m_refs.find? ord with
    | some cat => (cat.hdr.base.parent).1
    | none => none
  | .function ord f =>
    match m.functionAt ord f with
    | some fh => (fh.hdr.base.parent).1
    | none => none
  | .item j =>
    match m.m_refs[j]? with
    | some it => (it.parent).1
    | none => none

/-- Modelled from the spec: CrossReferenceTreeModel::index (xreflist.cpp
absent): given a parent node (the root if the parent handle is invalid) and a
row, a handle to the child at that row, and the invalid handle if the row is
out of bounds. The specification gives the tree no column count, so no column
is rejected here. -/
def index (m : CrossReferenceTreeModel) (row : Int) (_col : Int)
    (parent : QModelIndex) : QModelIndex :=
  match parent with
  | none => m.childOf .root row
  | some p => m.childOf p row

/-- Modelled from the spec: CrossReferenceTreeModel::parent (xreflist.cpp
absent): the handle of the containing grouping node, and the invalid handle
for the direct children of the root. -/
def parent (m : CrossReferenceTreeModel) (i : QModelIndex) : QModelIndex :=
  match i with
  | none => none
  | some p =>
    match m.parentOf p with
    | none => none
    | some .root => none
    | some q => some q

end CrossReferenceTreeModel

/-- Modelled from the spec: rows of a function group in display order (the
hierarchy of section 3): the header, then its items. -/
def XrefFunctionHeader.rows (ord : Int) (e : FunctionRef × XrefFunctionHeader) :
    List XrefPtr :=
  XrefPtr.function ord e.1 :: e.2.m_refs.map XrefPtr.item

/-- Modelled from the spec: rows of a category in display order (the
hierarchy of section 3): the category node, then its function groups one after
the other, or its items. -/
def XrefCategory.rows (e : Int × XrefCategory) : List XrefPtr :=
  match e.2 with
  | .code c => XrefPtr.category e.1 :: c.m_refs.entries.flatMap (XrefFunctionHeader.rows e.1)
  | .data d => XrefPtr.category e.1 :: d.m_refs.map XrefPtr.item

/-- Whether a row is a leaf item rather than a grouping node. -/
def XrefPtr.isLeaf : XrefPtr → Bool
  | .item _ => true
  | _ => false

/-- Function groups of a category. -/
def XrefCategory.functionHeaders : XrefCategory → List XrefFunctionHeader
  | .code c => c.m_refs.entries.map Prod.snd
  | .data _ => []

/-- Data category nodes among one category node. -/
def XrefCategory.dataCategories : XrefCategory → List XrefDataReferences
  | .code _ => []
  | .data d => [d]

/-- The item sequences of the groups of a category that hold leaf items: its
function groups, or the category itself when it does not group by function. -/
def XrefCategory.groups : XrefCategory → List (List Nat)
  | .code c => c.m_refs.entries.map (fun g => g.2.m_refs)
  | .data d => [d.m_refs]

/-- Every XrefFunctionHeader of the hierarchy. -/
def XrefRoot.functionHeaders (r : XrefRoot) : List XrefFunctionHeader :=
  r.m_refs.entries.flatMap (fun e => e.2.functionHeaders)

/-- Every XrefDataReferences node of the hierarchy. -/
def XrefRoot.dataCategories (r : XrefRoot) : List XrefDataReferences :=
  r.m_refs.entries.flatMap (fun e => e.2.dataCategories)

/-- The item sequences of the groups that hold leaf items (function groups
and data categories), in display order. -/
def XrefRoot.groups (r : XrefRoot) : List (List Nat) :=
  r.m_refs.entries.flatMap (fun e => e.2.groups)

namespace CrossReferenceTreeModel

/-- Modelled from the spec: all rows of the fully expanded tree, top to
bottom, the categories in the order of the root map. -/
def rows (m : CrossReferenceTreeModel) : List XrefPtr :=
  m.m_rootItem.m_refs.entries.flatMap XrefCategory.rows

/-- The leaf rows, top to bottom. -/
def leafRows (m : CrossReferenceTreeModel) : List XrefPtr :=
  m.rows.filter XrefPtr.isLeaf

/-- Modelled from the spec: the first leaf row of the tree, where a traversal
of all leaves starts; invalid when there is none. -/
def firstLeaf (m : CrossReferenceTreeModel) : QModelIndex :=
  m.rows.find? XrefPtr.isLeaf

/-- Modelled from the spec: CrossReferenceTreeModel::nextValidIndex
(xreflist.cpp absent): a linear traversal of the rows after the current one
that skips the rows that are not leaves, crossing the end of a function group
and of a category, and that stops with the invalid handle at the end of the
hierarchy. -/
def nextValidIndex (m : CrossReferenceTreeModel) (current : QModelIndex) : QModelIndex :=
  match current with
  | none => none
  | some c => ((m.rows.dropWhile (fun r => decide (r ≠ c))).drop 1).find? XrefPtr.isLeaf

end CrossReferenceTreeModel

/-! ## Consistency of the parent back-links

The invariant of section 3 of the specification: the parent pointer of every
node is the address of the grouping node that holds it in its child
collection. `k` bounds the item positions that were appended so far. -/

/-- Parent pointer stored in the leaf item at position `j` of the vector. -/
def parentAt (mem : List XrefItem) (j : Nat) : Option (Option XrefPtr) :=
  (mem[j]?).map (fun it => it.m_parentItem)

/-- Back-links of a function group stored under key `f` in the category
stored under key `ord`. -/
def FunctionLinked (mem : List XrefItem) (k : Nat) (ord : Int) (f : FunctionRef)
    (fh : XrefFunctionHeader) : Prop :=
  fh.hdr.base.m_parentItem = some (.category ord) ∧
  ∀ j ∈ fh.m_refs, j < k ∧ parentAt mem j = some (some (.function ord f))

/-- Back-links of a category stored under key `ord` and of what it holds. -/
def CategoryLinked (mem : List XrefItem) (k : Nat) (ord : Int) : XrefCategory → Prop
  | .code c =>
    c.hdr.base.m_parentItem = some .root ∧
    ∀ f fh, c.m_refs.find? f = some fh → FunctionLinked mem k ord f fh
  | .data d =>
    d.hdr.base.m_parentItem = some .root ∧
    ∀ j ∈ d.m_refs, j < k ∧ parentAt mem j = some (some (.category ord))

/-- Back-links of the whole hierarchy. -/
def RootLinked (mem : List XrefItem) (k : Nat) (r : XrefRoot) : Prop :=
  ∀ ord cat, r.m_refs.find? ord = some cat → CategoryLinked mem k ord cat

/-- Effect of one appendChild on the item sequences of the groups: the item
went to the end of one existing group, or a new group holding just the item
was created. -/
def GroupsStep (ref : Nat) (before after : List (List Nat)) : Prop :=
  (∃ pre g post, before = pre ++ g :: post ∧ after = pre ++ (g ++ [ref]) :: post) ∨
  (∃ pre post, before = pre ++ post ∧ after = pre ++ [ref] :: post)

/-- Every group lists its items in the order of the flat list (increasing
positions), all of them among the first `k` items. -/
def GroupsInOrder (k : Nat) (gs : List (List Nat)) : Prop :=
  ∀ g ∈ gs, g.Pairwise (fun a b => a < b) ∧ ∀ j ∈ g, j < k

/-! ## Sample data -/

/-- A function object A starting at 0x1000. -/
def funcA : FunctionRef := some ⟨10, 4096⟩

/-- A function object B starting at 0x2000. -/
def funcB : FunctionRef := some ⟨20, 8192⟩

/-- The flat list of the scenario of section 8 of the specification: two
forward code references in A and one backward data reference in B. -/
def scenarioList : List XrefItem :=
  [⟨funcA, some ⟨1⟩, 256, .CodeXrefType, .Forward, none, 0⟩,
   ⟨funcA, some ⟨1⟩, 260, .CodeXrefType, .Forward, none, 0⟩,
   ⟨funcB, some ⟨1⟩, 512, .DataXrefType, .Backward, none, 0⟩]

/-- A code category holding one function group (for A) with two items. -/
def sampleCodeCategory : XrefCodeReferences :=
  ⟨⟨⟨none, none, 0, .CodeXrefType, .Forward, some .root, 0⟩⟩,
    StdMap.set FunctionRef.lt StdMap.empty funcA
      ⟨⟨⟨none, none, 0, .CodeXrefType, .Forward, some (.category 1), 0⟩⟩, [0, 1], funcA⟩⟩

/-- The item with its parent back-reference cleared. -/
def clearParent (it : XrefItem) : XrefItem := (it.setParent none).2

/-! ## Flat table model -/

/-- CrossReferenceTableModel::ColumnHeaders (xreflist.h lines 186-192). -/
inductive ColumnHeaders where
  | Direction
  | Address
  | Function
  | Preview
deriving DecidableEq, Repr

/-- Enumerator values written in the header: Direction = 0, Address = 1,
Function = 2, Preview = 3. -/
def ColumnHeaders.toInt : ColumnHeaders → Int
  | .Direction => 0
  | .Address => 1
  | .Function => 2
  | .Preview => 3

/-- State of CrossReferenceTableModel that its inline members read: the
backing vector m_refs (m_owner and m_data are host objects). -/
structure CrossReferenceTableModel where
  m_refs : List XrefItem
deriving DecidableEq, Repr

namespace CrossReferenceTableModel

/-- int rowCount(const QModelIndex& parent) const { (void)parent; return m_refs.size(); } -/
def rowCount (m : CrossReferenceTableModel) (_parent : QModelIndex) : Int :=
  m.m_refs.length

/-- QModelIndex parent(const QModelIndex& i) const { (void)i; return QModelIndex(); } -/
def parent (_m : CrossReferenceTableModel) (_i : QModelIndex) : QModelIndex := none

/-- int columnCount(const QModelIndex& parent) const { (void) parent; return 4; } -/
def columnCount (_m : CrossReferenceTableModel) (_parent : QModelIndex) : Int := 4

/-- bool hasChildren(const QModelIndex&) const { return false; } -/
def hasChildren (_m : CrossReferenceTableModel) (_i : QModelIndex) : Bool := false

end CrossReferenceTableModel

/-! ## Theorems -/

/-! ### std::map -/

theorem lookupEntry_eq_none {κ ν : Type} [DecidableEq κ] (k : κ) (es : List (κ × ν)) :
    lookupEntry k es = none ↔ k ∉ es.map Prod.fst := by
  induction es with
  | nil => simp [lookupEntry]
  | cons e es ih =>
    by_cases h : e.1 = k
    · simp [lookupEntry, h]
    · have h2 : ¬ k = e.1 := fun x => h x.symm
      simp only [lookupEntry, h, if_false, ih, List.map_cons, List.mem_cons, h2, false_or]

theorem lookupEntry_mem {κ ν : Type} [DecidableEq κ] (k : κ) (v : ν) (es : List (κ × ν))
    (h : lookupEntry k es = some v) : (k, v) ∈ es := by
  induction es with
  | nil => simp [lookupEntry] at h
  | cons e es ih =>
    by_cases hk : e.1 = k
    · simp only [lookupEntry, hk, if_true, Option.some.injEq] at h
      have : e = (k, v) := Prod.ext hk h
      simp [this]
    · simp only [lookupEntry, hk, if_false] at h
      exact List.mem_cons_of_mem _ (ih h)

theorem lookupEntry_of_mem {κ ν : Type} [DecidableEq κ] (k : κ) (v : ν)
    (es : List (κ × ν)) (nd : (es.map Prod.fst).Nodup) (h : (k, v) ∈ es) :
    lookupEntry k es = some v := by
  induction es with
  | nil => simp at h
  | cons e es ih =>
    rw [List.map_cons, List.nodup_cons] at nd
    rcases List.mem_cons.mp h with h1 | h1
    · subst h1
      simp [lookupEntry]
    · have hk : e.1 ≠ k := by
        intro hk
        apply nd.1
        rw [hk]
        exact List.mem_map_of_mem Prod.fst h1
      simp only [lookupEntry, hk, if_false]
      exact ih nd.2 h1

theorem lookupEntry_replaceEntry {κ ν : Type} [DecidableEq κ] (k k2 : κ) (v : ν)
    (es : List (κ × ν)) (h : k ∈ es.map Prod.fst) :
    lookupEntry k2 (replaceEntry k v es) = if k2 = k then some v else lookupEntry k2 es := by
  induction es with
  | nil => simp at h
  | cons e es ih =>
    by_cases hk : e.1 = k
    · by_cases h2 : k2 = k
      · simp [replaceEntry, lookupEntry, hk, h2]
      · have h3 : ¬ k = k2 := fun x => h2 x.symm
        simp [replaceEntry, lookupEntry, hk, h2, h3]
    · have hm : k ∈ es.map Prod.fst := by
        rcases List.mem_cons.mp h with h1 | h1
        · exact absurd h1.symm hk
        · exact h1
      by_cases h2 : e.1 = k2
      · have h3 : ¬ k2 = k := fun x => hk (h2.trans x)
        simp [replaceEntry, lookupEntry, hk, h2, h3]
      · simp only [replaceEntry, hk, if_false, lookupEntry, h2]
        exact ih hm

theorem lookupEntry_insertEntry {κ ν : Type} [DecidableEq κ] (lt : κ → κ → Bool)
    (k k2 : κ) (v : ν) (es : List (κ × ν)) (h : k ∉ es.map Prod.fst) :
    lookupEntry k2 (insertEntry lt k v es) = if k2 = k then some v else lookupEntry k2 es := by
  induction es with
  | nil =>
    by_cases h2 : k2 = k
    · simp [insertEntry, lookupEntry, h2]
    · have h3 : ¬ k = k2 := fun x => h2 x.symm
      simp [insertEntry, lookupEntry, h2, h3]
  | cons e es ih =>
    rw [List.map_cons, List.mem_cons, not_or] at h
    have hk : ¬ e.1 = k := fun x => h.1 x.symm
    by_cases hlt : lt k e.1 = true
    · by_cases h2 : k2 = k
      · simp [insertEntry, lookupEntry, hlt, h2]
      · have h3 : ¬ k = k2 := fun x => h2 x.symm
        simp [insertEntry, lookupEntry, hlt, h2, h3]
    · by_cases h2 : e.1 = k2
      · subst h2
        simp [insertEntry, lookupEntry, hlt, hk]
      · simp only [insertEntry, hlt, Bool.false_eq_true, if_false, lookupEntry, h2]
        exact ih h.2

theorem replaceEntry_split {κ ν : Type} [DecidableEq κ] (k : κ) (v v0 : ν)
    (es : List (κ × ν)) (h : lookupEntry k es = some v0) :
    ∃ pre post, es = pre ++ (k, v0) :: post ∧
      replaceEntry k v es = pre ++ (k, v) :: post := by
  induction es with
  | nil => simp [lookupEntry] at h
  | cons e es ih =>
    by_cases hk : e.1 = k
    · simp only [lookupEntry, hk, if_true, Option.some.injEq] at h
      refine ⟨[], es, ?_, ?_⟩
      · have : e = (k, v0) := Prod.ext hk h
        simp [this]
      · simp [replaceEntry, hk]
    · simp only [lookupEntry, hk, if_false] at h
      obtain ⟨pre, post, h1, h2⟩ := ih h
      refine ⟨e :: pre, post, ?_, ?_⟩
      · simp [h1]
      · simp [replaceEntry, hk, h2]

theorem insertEntry_split {κ ν : Type} (lt : κ → κ → Bool) (k : κ) (v : ν)
    (es : List (κ × ν)) :
    ∃ pre post, es = pre ++ post ∧ insertEntry lt k v es = pre ++ (k, v) :: post := by
  induction es with
  | nil => exact ⟨[], [], rfl, rfl⟩
  | cons e es ih =>
    by_cases hlt : lt k e.1 = true
    · exact ⟨[], e :: es, rfl, by simp [insertEntry, hlt]⟩
    · obtain ⟨pre, post, h1, h2⟩ := ih
      refine ⟨e :: pre, post, ?_, ?_⟩
      · simp [h1]
      · simp [insertEntry, hlt, h2]

theorem StdMap.find?_set {κ ν : Type} [DecidableEq κ] (lt : κ → κ → Bool)
    (m : StdMap κ ν) (k k2 : κ) (v : ν) :
    (m.set lt k v).find? k2 = if k2 = k then some v else m.find? k2 := by
  unfold StdMap.set StdMap.find?
  by_cases h : k ∈ m.entries.map Prod.fst
  · rw [dif_pos h]
    exact lookupEntry_replaceEntry k k2 v m.entries h
  · rw [dif_neg h]
    exact lookupEntry_insertEntry lt k k2 v m.entries h

theorem StdMap.find?_of_mem {κ ν : Type} [DecidableEq κ] (m : StdMap κ ν) (k : κ) (v : ν)
    (h : (k, v) ∈ m.entries) : m.find? k = some v :=
  lookupEntry_of_mem k v m.entries m.nodupKeys h

theorem StdMap.set_entries_of_some {κ ν : Type} [DecidableEq κ] (lt : κ → κ → Bool)
    (m : StdMap κ ν) (k : κ) (v v0 : ν) (h : m.find? k = some v0) :
    ∃ pre post, m.entries = pre ++ (k, v0) :: post ∧
      (m.set lt k v).entries = pre ++ (k, v) :: post := by
  have hm : k ∈ m.entries.map Prod.fst := by
    by_contra hc
    have := (lookupEntry_eq_none k m.entries).mpr hc
    unfold StdMap.find? at h
    rw [this] at h
    cases h
  unfold StdMap.set
  rw [dif_pos hm]
  exact replaceEntry_split k v v0 m.entries h

theorem StdMap.set_entries_of_none {κ ν : Type} [DecidableEq κ] (lt : κ → κ → Bool)
    (m : StdMap κ ν) (k : κ) (v : ν) (h : m.find? k = none) :
    ∃ pre post, m.entries = pre ++ post ∧
      (m.set lt k v).entries = pre ++ (k, v) :: post := by
  have hm : k ∉ m.entries.map Prod.fst := (lookupEntry_eq_none k m.entries).mp h
  unfold StdMap.set
  rw [dif_neg hm]
  exact insertEntry_split lt k v m.entries

theorem nth?_mem {α : Type} (l : List α) (i : Int) (a : α) (h : nth? l i = some a) :
    a ∈ l := by
  unfold nth? at h
  by_cases hi : i < 0
  · simp [hi] at h
  · rw [if_neg hi] at h
    exact List.getElem?_mem h

/-! ### Parent back-links are kept consistent by appendChild -/

theorem parentAt_setParentAt_ne (mem : List XrefItem) (ref j : Nat) (p : XrefPtr)
    (h : j ≠ ref) : parentAt (setParentAt mem ref p) j = parentAt mem j := by
  unfold parentAt setParentAt
  rw [List.getElem?_modify_ne _ _ (Ne.symm h)]

theorem parentAt_setParentAt_eq (mem : List XrefItem) (ref : Nat) (p : XrefPtr)
    (it : XrefItem) (h : mem[ref]? = some it) :
    parentAt (setParentAt mem ref p) ref = some (some p) := by
  unfold parentAt setParentAt
  rw [List.getElem?_modify_eq, h]
  rfl

theorem length_setParentAt (mem : List XrefItem) (ref : Nat) (p : XrefPtr) :
    (setParentAt mem ref p).length = mem.length := by
  unfold setParentAt
  exact List.length_modify _ _ _

theorem FunctionLinked.function_step_other {mem : List XrefItem} {k : Nat} {ord : Int}
    {f : FunctionRef} {fh : XrefFunctionHeader} (h : FunctionLinked mem k ord f fh)
    (p : XrefPtr) : FunctionLinked (setParentAt mem k p) (k + 1) ord f fh := by
  refine ⟨h.1, fun j hj => ?_⟩
  have hj2 := h.2 j hj
  refine ⟨Nat.lt_succ_of_lt hj2.1, ?_⟩
  rw [parentAt_setParentAt_ne mem k j p (Nat.ne_of_lt hj2.1)]
  exact hj2.2

theorem FunctionLinked.function_step_append {mem : List XrefItem} {k : Nat} {ord : Int}
    {f : FunctionRef} {fh : XrefFunctionHeader} (h : FunctionLinked mem k ord f fh)
    (it : XrefItem) (hk : mem[k]? = some it) :
    FunctionLinked (fh.appendChild (.function ord f) k mem).2 (k + 1) ord f
      (fh.appendChild (.function ord f) k mem).1 := by
  refine ⟨h.1, fun j hj => ?_⟩
  simp only [XrefFunctionHeader.appendChild, List.mem_append, List.mem_singleton] at hj ⊢
  rcases hj with hj | hj
  · exact (h.function_step_other (.function ord f)).2 j hj
  · subst hj
    exact ⟨Nat.lt_succ_self _, parentAt_setParentAt_eq mem j _ it hk⟩

theorem XrefCategory.appendChild_mem (ord : Int) (cat : XrefCategory) (k : Nat)
    (mem : List XrefItem) :
    ∃ p, (cat.appendChild ord k mem).2 = setParentAt mem k p := by
  cases cat with
  | data d => exact ⟨.category ord, rfl⟩
  | code c =>
    cases hk : mem[k]? with
    | none =>
      refine ⟨.root, ?_⟩
      simp only [XrefCategory.appendChild, XrefCodeReferences.appendChild, hk, setParentAt]
      rw [List.modify_eq_set_get?]
      simp [hk]
    | some it =>
      cases hf : c.m_refs.find? (it.func).1 with
      | none =>
        refine ⟨.function ord (it.func).1, ?_⟩
        simp only [XrefCategory.appendChild, XrefCodeReferences.appendChild, hk, hf]
        rfl
      | some fh =>
        refine ⟨.function ord (it.func).1, ?_⟩
        simp only [XrefCategory.appendChild, XrefCodeReferences.appendChild, hk, hf]
        rfl

theorem CategoryLinked.category_step_other {mem : List XrefItem} {k : Nat} {ord : Int}
    {cat : XrefCategory} (h : CategoryLinked mem k ord cat) (p : XrefPtr) :
    CategoryLinked (setParentAt mem k p) (k + 1) ord cat := by
  cases cat with
  | code c =>
    exact ⟨h.1, fun f fh hf => (h.2 f fh hf).function_step_other p⟩
  | data d =>
    refine ⟨h.1, fun j hj => ?_⟩
    have hj2 := h.2 j hj
    refine ⟨Nat.lt_succ_of_lt hj2.1, ?_⟩
    rw [parentAt_setParentAt_ne mem k j p (Nat.ne_of_lt hj2.1)]
    exact hj2.2

theorem CategoryLinked.category_step_append {mem : List XrefItem} {k : Nat} {ord : Int}
    {cat : XrefCategory} (h : CategoryLinked mem k ord cat)
    (it : XrefItem) (hk : mem[k]? = some it) :
    CategoryLinked (cat.appendChild ord k mem).2 (k + 1) ord
      (cat.appendChild ord k mem).1 := by
  cases cat with
  | data d =>
    refine ⟨h.1, fun j hj => ?_⟩
    simp only [XrefCategory.appendChild, XrefDataReferences.appendChild,
      List.mem_append, List.mem_singleton] at hj ⊢
    rcases hj with hj | hj
    · have hj2 := h.2 j hj
      refine ⟨Nat.lt_succ_of_lt hj2.1, ?_⟩
      rw [parentAt_setParentAt_ne mem k j _ (Nat.ne_of_lt hj2.1)]
      exact hj2.2
    · subst hj
      exact ⟨Nat.lt_succ_self _, parentAt_setParentAt_eq mem j _ it hk⟩
  | code c =>
    simp only [XrefCategory.appendChild, XrefCodeReferences.appendChild, hk]
    cases hf : c.m_refs.find? (it.func).1 with
    | none =>
      refine ⟨h.1, fun f2 fh2 h2 => ?_⟩
      simp only [StdMap.find?_set] at h2
      by_cases he : f2 = (it.func).1
      · rw [if_pos he, Option.some.injEq] at h2
        subst he
        subst h2
        refine ⟨rfl, fun j hj => ?_⟩
        simp only [XrefFunctionHeader.create, XrefFunctionHeader.appendChild,
          List.nil_append, List.mem_singleton] at hj ⊢
        subst hj
        exact ⟨Nat.lt_succ_self _, parentAt_setParentAt_eq mem j _ it hk⟩
      · rw [if_neg he] at h2
        exact (h.2 f2 fh2 h2).function_step_other _
    | some fh =>
      refine ⟨h.1, fun f2 fh2 h2 => ?_⟩
      simp only [StdMap.find?_set] at h2
      by_cases he : f2 = (it.func).1
      · rw [if_pos he, Option.some.injEq] at h2
        subst he
        subst h2
        exact (h.2 _ fh hf).function_step_append it hk
      · rw [if_neg he] at h2
        exact (h.2 f2 fh2 h2).function_step_other _

theorem CategoryLinked.create (mem : List XrefItem) (k : Nat) (ord : Int) (b : Bool) :
    CategoryLinked mem k ord (XrefCategory.create b) := by
  cases b with
  | true =>
    refine ⟨rfl, fun f fh hf => ?_⟩
    simp [XrefCategory.create, StdMap.find?, StdMap.empty, lookupEntry] at hf
  | false =>
    refine ⟨rfl, fun j hj => ?_⟩
    simp [XrefCategory.create] at hj

theorem RootLinked.step {pol : CategoryPolicy} {mem : List XrefItem} {k : Nat}
    {r : XrefRoot} (h : RootLinked mem k r) (it : XrefItem) (hk : mem[k]? = some it) :
    RootLinked (r.appendChild pol k mem).2 (k + 1) (r.appendChild pol k mem).1 := by
  simp only [XrefRoot.appendChild, hk]
  cases hf : r.m_refs.find? (pol.ordinal (it.type).1) with
  | none =>
    intro ord2 cat2 h2
    simp only [StdMap.find?_set] at h2
    by_cases he : ord2 = pol.ordinal (it.type).1
    · rw [if_pos he, Option.some.injEq] at h2
      subst he
      subst h2
      exact (CategoryLinked.create mem k _ _).category_step_append it hk
    · rw [if_neg he] at h2
      obtain ⟨p, hp⟩ := XrefCategory.appendChild_mem (pol.ordinal (it.type).1)
        (XrefCategory.create (pol.byFunction (it.type).1)) k mem
      simp only [hp]
      exact (h ord2 cat2 h2).category_step_other p
  | some cat =>
    intro ord2 cat2 h2
    simp only [StdMap.find?_set] at h2
    by_cases he : ord2 = pol.ordinal (it.type).1
    · rw [if_pos he, Option.some.injEq] at h2
      subst he
      subst h2
      exact (h _ cat hf).category_step_append it hk
    · rw [if_neg he] at h2
      obtain ⟨p, hp⟩ := XrefCategory.appendChild_mem (pol.ordinal (it.type).1) cat k mem
      simp only [hp]
      exact (h ord2 cat2 h2).category_step_other p

theorem XrefRoot.appendChild_length (pol : CategoryPolicy) (r : XrefRoot) (k : Nat)
    (mem : List XrefItem) : (r.appendChild pol k mem).2.length = mem.length := by
  cases hk : mem[k]? with
  | none => simp only [XrefRoot.appendChild, hk]
  | some it =>
    cases hf : r.m_refs.find? (pol.ordinal (it.type).1) with
    | none =>
      obtain ⟨p, hp⟩ := XrefCategory.appendChild_mem (pol.ordinal (it.type).1)
        (XrefCategory.create (pol.byFunction (it.type).1)) k mem
      simp only [XrefRoot.appendChild, hk, hf, hp, length_setParentAt]
    | some cat =>
      obtain ⟨p, hp⟩ := XrefCategory.appendChild_mem (pol.ordinal (it.type).1) cat k mem
      simp only [XrefRoot.appendChild, hk, hf, hp, length_setParentAt]

theorem appendFirst_length (pol : CategoryPolicy) (refs : List XrefItem) (k : Nat) :
    (appendFirst pol refs k).2.length = refs.length := by
  induction k with
  | zero => rfl
  | succ k ih =>
    simp only [appendFirst]
    rw [XrefRoot.appendChild_length, ih]

theorem appendFirst_getElem? (pol : CategoryPolicy) (refs : List XrefItem) (k : Nat)
    (hk : k < refs.length) : ∃ it, (appendFirst pol refs k).2[k]? = some it := by
  have hl : k < (appendFirst pol refs k).2.length := by
    rw [appendFirst_length]
    exact hk
  exact ⟨_, List.getElem?_eq_getElem hl⟩

theorem appendFirst_linked (pol : CategoryPolicy) (refs : List XrefItem) (k : Nat)
    (hk : k ≤ refs.length) :
    RootLinked (appendFirst pol refs k).2 k (appendFirst pol refs k).1 := by
  induction k with
  | zero =>
    intro ord cat h
    simp [appendFirst, XrefRoot.create, StdMap.find?, StdMap.empty, lookupEntry] at h
  | succ k ih =>
    obtain ⟨it, hit⟩ := appendFirst_getElem? pol refs k hk
    exact (ih (Nat.le_of_succ_le hk)).step it hit

/-! ### Effect of appendChild on the groups -/

theorem GroupsStep.context {ref : Nat} {before after : List (List Nat)}
    (h : GroupsStep ref before after) (a b : List (List Nat)) :
    GroupsStep ref (a ++ before ++ b) (a ++ after ++ b) := by
  rcases h with ⟨pre, g, post, h1, h2⟩ | ⟨pre, post, h1, h2⟩
  · left
    exact ⟨a ++ pre, g, post ++ b, by simp [h1], by simp [h2]⟩
  · right
    exact ⟨a ++ pre, post ++ b, by simp [h1], by simp [h2]⟩

theorem GroupsStep.perm {ref : Nat} {before after : List (List Nat)}
    (h : GroupsStep ref before after) : after.flatten.Perm (before.flatten ++ [ref]) := by
  rcases h with ⟨pre, g, post, h1, h2⟩ | ⟨pre, post, h1, h2⟩
  · subst h1
    subst h2
    simp only [List.flatten_append, List.flatten_cons, List.append_assoc]
    refine List.Perm.append_left _ (List.Perm.append_left _ ?_)
    exact List.perm_append_comm
  · subst h1
    subst h2
    simp only [List.flatten_append, List.flatten_cons, List.append_assoc]
    refine List.Perm.append_left _ ?_
    exact List.perm_append_comm

theorem GroupsStep.inOrder {k : Nat} {before after : List (List Nat)}
    (h : GroupsStep k before after) (ho : GroupsInOrder k before) :
    GroupsInOrder (k + 1) after := by
  have weaken : ∀ g : List Nat, (g.Pairwise (fun a b => a < b) ∧ ∀ j ∈ g, j < k) →
      (g.Pairwise (fun a b => a < b) ∧ ∀ j ∈ g, j < k + 1) :=
    fun g hg => ⟨hg.1, fun j hj => Nat.lt_succ_of_lt (hg.2 j hj)⟩
  have extend : ∀ g : List Nat, (g.Pairwise (fun a b => a < b) ∧ ∀ j ∈ g, j < k) →
      ((g ++ [k]).Pairwise (fun a b => a < b) ∧ ∀ j ∈ g ++ [k], j < k + 1) := by
    intro g hg
    constructor
    · rw [List.pairwise_append]
      refine ⟨hg.1, List.pairwise_singleton _ _, fun a ha b hb => ?_⟩
      rw [List.mem_singleton] at hb
      subst hb
      exact hg.2 a ha
    · intro j hj
      rcases List.mem_append.mp hj with hj | hj
      · exact Nat.lt_succ_of_lt (hg.2 j hj)
      · rw [List.mem_singleton] at hj
        subst hj
        exact Nat.lt_succ_self _
  rcases h with ⟨pre, g, post, h1, h2⟩ | ⟨pre, post, h1, h2⟩
  · subst h1
    subst h2
    intro x hx
    rcases List.mem_append.mp hx with hx | hx
    · exact weaken x (ho x (List.mem_append_left _ hx))
    · rcases List.mem_cons.mp hx with hx | hx
      · subst hx
        exact extend g (ho g (List.mem_append_right _ (List.mem_cons_self _ _)))
      · exact weaken x (ho x (List.mem_append_right _ (List.mem_cons_of_mem _ hx)))
  · subst h1
    subst h2
    intro x hx
    rcases List.mem_append.mp hx with hx | hx
    · exact weaken x (ho x (List.mem_append_left _ hx))
    · rcases List.mem_cons.mp hx with hx | hx
      · subst hx
        exact extend [] ⟨List.Pairwise.nil, fun j hj => by simp at hj⟩
      · exact weaken x (ho x (List.mem_append_right _ hx))

theorem XrefCategory.category_appendChild_groups (ord : Int) (cat : XrefCategory) (k : Nat)
    (mem : List XrefItem) (it : XrefItem) (hk : mem[k]? = some it) :
    GroupsStep k cat.groups (cat.appendChild ord k mem).1.groups := by
  cases cat with
  | data d =>
    left
    exact ⟨[], d.m_refs, [], rfl, rfl⟩
  | code c =>
    cases hf : c.m_refs.find? (it.func).1 with
    | none =>
      right
      obtain ⟨pre, post, h1, h2⟩ := StdMap.set_entries_of_none FunctionRef.lt c.m_refs
        (it.func).1 (XrefFunctionHeader.create (it.func).1 (.category ord)
          (.function ord (it.func).1) k mem).1 hf
      refine ⟨pre.map (fun g => g.2.m_refs), post.map (fun g => g.2.m_refs), ?_, ?_⟩
      · simp only [XrefCategory.groups, h1, List.map_append]
      · simp only [XrefCategory.appendChild, XrefCodeReferences.appendChild, hk, hf,
          XrefCategory.groups, h2, List.map_append, List.map_cons]
        rfl
    | some fh =>
      left
      obtain ⟨pre, post, h1, h2⟩ := StdMap.set_entries_of_some FunctionRef.lt c.m_refs
        (it.func).1 (fh.appendChild (.function ord (it.func).1) k mem).1 fh hf
      refine ⟨pre.map (fun g => g.2.m_refs), fh.m_refs, post.map (fun g => g.2.m_refs),
        ?_, ?_⟩
      · simp only [XrefCategory.groups, h1, List.map_append, List.map_cons]
      · simp only [XrefCategory.appendChild, XrefCodeReferences.appendChild, hk, hf,
          XrefCategory.groups, h2, List.map_append, List.map_cons]
        rfl

theorem XrefCategory.create_appendChild_groups (ord : Int) (b : Bool) (k : Nat)
    (mem : List XrefItem) (it : XrefItem) (hk : mem[k]? = some it) :
    ((XrefCategory.create b).appendChild ord k mem).1.groups = [[k]] := by
  cases b with
  | false => rfl
  | true =>
    simp only [XrefCategory.create, if_true, XrefCategory.appendChild,
      XrefCodeReferences.appendChild, hk]
    rfl

theorem XrefRoot.root_appendChild_groups (pol : CategoryPolicy) (r : XrefRoot) (k : Nat)
    (mem : List XrefItem) (it : XrefItem) (hk : mem[k]? = some it) :
    GroupsStep k r.groups (r.appendChild pol k mem).1.groups := by
  cases hf : r.m_refs.find? (pol.ordinal (it.type).1) with
  | none =>
    right
    obtain ⟨pre, post, h1, h2⟩ := StdMap.set_entries_of_none (fun a b => decide (a < b))
      r.m_refs (pol.ordinal (it.type).1)
      ((XrefCategory.create (pol.byFunction (it.type).1)).appendChild
        (pol.ordinal (it.type).1) k mem).1 hf
    refine ⟨pre.flatMap (fun e => e.2.groups), post.flatMap (fun e => e.2.groups), ?_, ?_⟩
    · simp only [XrefRoot.groups, h1, List.flatMap_append]
    · simp only [XrefRoot.appendChild, hk, hf, XrefRoot.groups, h2, List.flatMap_append,
        List.flatMap_cons, XrefCategory.create_appendChild_groups _ _ k mem it hk]
      rfl
  | some cat =>
    obtain ⟨pre, post, h1, h2⟩ := StdMap.set_entries_of_some (fun a b => decide (a < b))
      r.m_refs (pol.ordinal (it.type).1)
      (cat.appendChild (pol.ordinal (it.type).1) k mem).1 cat hf
    have hc := (XrefCategory.category_appendChild_groups (pol.ordinal (it.type).1) cat k mem it hk).context
      (pre.flatMap (fun e => e.2.groups)) (post.flatMap (fun e => e.2.groups))
    simp only [XrefRoot.appendChild, hk, hf, XrefRoot.groups, h1, h2, List.flatMap_append,
      List.flatMap_cons, List.append_assoc] at hc ⊢
    exact hc

theorem appendFirst_groups (pol : CategoryPolicy) (refs : List XrefItem) (k : Nat)
    (hk : k ≤ refs.length) :
    (appendFirst pol refs k).1.groups.flatten.Perm (List.range k) ∧
    GroupsInOrder k (appendFirst pol refs k).1.groups := by
  induction k with
  | zero =>
    constructor
    · exact List.Perm.refl _
    · intro g hg
      simp [appendFirst, XrefRoot.groups, XrefRoot.create, StdMap.empty] at hg
  | succ k ih =>
    obtain ⟨it, hit⟩ := appendFirst_getElem? pol refs k hk
    have hs := XrefRoot.root_appendChild_groups pol (appendFirst pol refs k).1 k
      (appendFirst pol refs k).2 it hit
    have ih2 := ih (Nat.le_of_succ_le hk)
    constructor
    · rw [List.range_succ]
      exact hs.perm.trans (List.Perm.append_right _ ih2.1)
    · exact hs.inOrder ih2.2

/-! ### Rows, leaves and child counts -/

theorem filter_isLeaf_items (l : List Nat) :
    (l.map XrefPtr.item).filter XrefPtr.isLeaf = l.map XrefPtr.item := by
  induction l with
  | nil => rfl
  | cons a l ih => simp [XrefPtr.isLeaf, ih]

theorem function_rows_filter (ord : Int) (es : List (FunctionRef × XrefFunctionHeader)) :
    (es.flatMap (XrefFunctionHeader.rows ord)).filter XrefPtr.isLeaf =
      (es.map (fun g => g.2.m_refs)).flatten.map XrefPtr.item := by
  induction es with
  | nil => rfl
  | cons e es ih =>
    simp only [List.flatMap_cons, List.filter_append, ih, List.map_cons, List.flatten_cons,
      List.map_append, XrefFunctionHeader.rows]
    rw [List.filter_cons_of_neg (by simp [XrefPtr.isLeaf]), filter_isLeaf_items]

theorem category_rows_filter (e : Int × XrefCategory) :
    (XrefCategory.rows e).filter XrefPtr.isLeaf = e.2.groups.flatten.map XrefPtr.item := by
  obtain ⟨ord, cat⟩ := e
  cases cat with
  | code c =>
    simp only [XrefCategory.rows, XrefCategory.groups]
    rw [List.filter_cons_of_neg (by simp [XrefPtr.isLeaf]), function_rows_filter]
  | data d =>
    simp only [XrefCategory.rows, XrefCategory.groups]
    rw [List.filter_cons_of_neg (by simp [XrefPtr.isLeaf]), filter_isLeaf_items]
    simp

theorem rows_filter_entries (es : List (Int × XrefCategory)) :
    (es.flatMap XrefCategory.rows).filter XrefPtr.isLeaf =
      (es.flatMap (fun e => e.2.groups)).flatten.map XrefPtr.item := by
  induction es with
  | nil => rfl
  | cons e es ih =>
    simp only [List.flatMap_cons, List.filter_append, ih, category_rows_filter,
      List.flatten_append, List.map_append]

theorem leafRows_eq (m : CrossReferenceTreeModel) :
    m.leafRows = m.m_rootItem.groups.flatten.map XrefPtr.item :=
  rows_filter_entries m.m_rootItem.m_refs.entries

theorem function_childCount_sum (es : List (FunctionRef × XrefFunctionHeader)) :
    ((es.map Prod.snd).map XrefFunctionHeader.childCount).sum =
      (((es.map (fun g => g.2.m_refs)).flatten.length : Nat) : Int) := by
  induction es with
  | nil => rfl
  | cons e es ih =>
    simp only [List.map_cons, List.sum_cons, ih, List.flatten_cons, List.length_append,
      XrefFunctionHeader.childCount, Nat.cast_add]

theorem category_childCount_sum (cat : XrefCategory) :
    (cat.functionHeaders.map XrefFunctionHeader.childCount).sum +
      (cat.dataCategories.map XrefDataReferences.childCount).sum =
      ((cat.groups.flatten.length : Nat) : Int) := by
  cases cat with
  | code c =>
    simp only [XrefCategory.functionHeaders, XrefCategory.dataCategories,
      XrefCategory.groups, function_childCount_sum, List.map_nil, List.sum_nil, add_zero]
  | data d =>
    simp [XrefCategory.functionHeaders, XrefCategory.dataCategories,
      XrefCategory.groups, XrefDataReferences.childCount]

theorem entries_childCount_sum (es : List (Int × XrefCategory)) :
    ((es.flatMap (fun e => e.2.functionHeaders)).map XrefFunctionHeader.childCount).sum +
      ((es.flatMap (fun e => e.2.dataCategories)).map XrefDataReferences.childCount).sum =
      (((es.flatMap (fun e => e.2.groups)).flatten.length : Nat) : Int) := by
  induction es with
  | nil => rfl
  | cons e es ih =>
    simp only [List.flatMap_cons, List.map_append, List.sum_append, List.flatten_append,
      List.length_append, Nat.cast_add]
    rw [← ih, ← category_childCount_sum e.2]
    ring

theorem root_childCount_sum (r : XrefRoot) :
    (r.functionHeaders.map XrefFunctionHeader.childCount).sum +
      (r.dataCategories.map XrefDataReferences.childCount).sum =
      ((r.groups.flatten.length : Nat) : Int) :=
  entries_childCount_sum r.m_refs.entries

/-! ### Linear traversal of the leaf rows -/

theorem find?_eq_filter_zero {α : Type} (p : α → Bool) (l : List α) :
    l.find? p = (l.filter p)[0]? := by
  induction l with
  | nil => rfl
  | cons a l ih =>
    cases h : p a with
    | true => simp [List.find?_cons, List.filter_cons, h]
    | false => simp [List.find?_cons, List.filter_cons, h, ih]

theorem find?_after_leaf (rows : List XrefPtr) (k : Nat) (c : XrefPtr)
    (hnd : (rows.filter XrefPtr.isLeaf).Nodup)
    (hc : (rows.filter XrefPtr.isLeaf)[k]? = some c) :
    ((rows.dropWhile (fun r => decide (r ≠ c))).drop 1).find? XrefPtr.isLeaf =
      (rows.filter XrefPtr.isLeaf)[k + 1]? := by
  induction rows generalizing k with
  | nil => simp at hc
  | cons r rs ih =>
    by_cases hr : r = c
    · subst hr
      have hleaf : XrefPtr.isLeaf r = true := by
        have := List.getElem?_mem hc
        exact (List.mem_filter.mp this).2
      rw [List.filter_cons_of_pos hleaf] at hnd hc ⊢
      rw [List.dropWhile_cons_of_neg (by simp)]
      have hk : k = 0 := by
        cases k with
        | zero => rfl
        | succ k =>
          exfalso
          rw [List.getElem?_cons_succ] at hc
          exact (List.nodup_cons.mp hnd).1 (List.getElem?_mem hc)
      subst hk
      simp only [List.drop_one, List.tail_cons, zero_add, List.getElem?_cons_succ]
      exact find?_eq_filter_zero _ _
    · rw [List.dropWhile_cons_of_pos (by simpa using hr)]
      cases hleaf : XrefPtr.isLeaf r with
      | false =>
        rw [List.filter_cons_of_neg (by simp [hleaf])] at hnd hc ⊢
        exact ih k hnd hc
      | true =>
        rw [List.filter_cons_of_pos hleaf] at hnd hc ⊢
        cases k with
        | zero =>
          simp only [List.getElem?_cons_zero, Option.some.injEq] at hc
          exact absurd hc hr
        | succ k =>
          rw [List.getElem?_cons_succ] at hc ⊢
          exact ih k (List.nodup_cons.mp hnd).2 hc

theorem iterate_nextValidIndex (m : CrossReferenceTreeModel) (hnd : m.leafRows.Nodup)
    (k : Nat) : (m.nextValidIndex)^[k] m.firstLeaf = m.leafRows[k]? := by
  induction k with
  | zero => exact find?_eq_filter_zero _ _
  | succ k ih =>
    rw [Function.iterate_succ_apply', ih]
    cases hc : m.leafRows[k]? with
    | none =>
      have hlen : m.leafRows.length ≤ k := List.getElem?_eq_none_iff.mp hc
      have : m.leafRows[k + 1]? = none :=
        List.getElem?_eq_none_iff.mpr (Nat.le_succ_of_le hlen)
      rw [this]
      rfl
    | some c =>
      exact find?_after_leaf m.rows k c hnd hc

theorem setModelData_leafRows_perm (pol : CategoryPolicy) (old : CrossReferenceTreeModel)
    (L : List XrefItem) :
    (CrossReferenceTreeModel.setModelData pol old L).leafRows.Perm
      ((List.range L.length).map XrefPtr.item) := by
  rw [leafRows_eq]
  exact ((appendFirst_groups pol L L.length (Nat.le_refl _)).1).map _

theorem setModelData_leafRows_nodup (pol : CategoryPolicy) (old : CrossReferenceTreeModel)
    (L : List XrefItem) :
    (CrossReferenceTreeModel.setModelData pol old L).leafRows.Nodup := by
  rw [(setModelData_leafRows_perm pol old L).nodup_iff]
  refine List.Nodup.map ?_ (List.nodup_range _)
  intro a b h
  cases h
  rfl

theorem setModelData_leafRows_length (pol : CategoryPolicy) (old : CrossReferenceTreeModel)
    (L : List XrefItem) :
    (CrossReferenceTreeModel.setModelData pol old L).leafRows.length = L.length := by
  rw [(setModelData_leafRows_perm pol old L).length_eq]
  simp

/-! ### The leaf items keep their fields -/

theorem map_clearParent_setParentAt (mem : List XrefItem) (k : Nat) (p : XrefPtr) :
    (setParentAt mem k p).map clearParent = mem.map clearParent := by
  apply List.ext_getElem?
  intro j
  simp only [List.getElem?_map, setParentAt]
  by_cases h : k = j
  · subst h
    rw [List.getElem?_modify_eq]
    cases mem[k]? with
    | none => rfl
    | some it => rfl
  · rw [List.getElem?_modify_ne _ _ h]

theorem XrefRoot.appendChild_clearParent (pol : CategoryPolicy) (r : XrefRoot) (k : Nat)
    (mem : List XrefItem) :
    (r.appendChild pol k mem).2.map clearParent = mem.map clearParent := by
  cases hk : mem[k]? with
  | none => simp only [XrefRoot.appendChild, hk]
  | some it =>
    cases hf : r.m_refs.find? (pol.ordinal (it.type).1) with
    | none =>
      obtain ⟨p, hp⟩ := XrefCategory.appendChild_mem (pol.ordinal (it.type).1)
        (XrefCategory.create (pol.byFunction (it.type).1)) k mem
      simp only [XrefRoot.appendChild, hk, hf, hp, map_clearParent_setParentAt]
    | some cat =>
      obtain ⟨p, hp⟩ := XrefCategory.appendChild_mem (pol.ordinal (it.type).1) cat k mem
      simp only [XrefRoot.appendChild, hk, hf, hp, map_clearParent_setParentAt]

theorem appendFirst_clearParent (pol : CategoryPolicy) (refs : List XrefItem) (k : Nat) :
    (appendFirst pol refs k).2.map clearParent = refs.map clearParent := by
  induction k with
  | zero => rfl
  | succ k ih =>
    simp only [appendFirst]
    rw [XrefRoot.appendChild_clearParent, ih]

/-! ### Index and parent on a consistent hierarchy -/

theorem CategoryLinked.parent_root {mem : List XrefItem} {k : Nat} {ord : Int}
    {cat : XrefCategory} (h : CategoryLinked mem k ord cat) :
    cat.hdr.base.m_parentItem = some .root := by
  cases cat with
  | code c => exact h.1
  | data d => exact h.1

theorem parentOf_item_of_parentAt (m : CrossReferenceTreeModel) (j : Nat) (q : XrefPtr)
    (h : parentAt m.m_refs j = some (some q)) : m.parentOf (.item j) = some q := by
  unfold parentAt at h
  unfold CrossReferenceTreeModel.parentOf
  cases hj : m.m_refs[j]? with
  | none => simp [hj] at h
  | some it =>
    simp only [hj, Option.map_some', Option.some.injEq] at h
    simp only [XrefItem.parent, hj, h]

theorem parent_childOf_root (m : CrossReferenceTreeModel) (k : Nat)
    (h : RootLinked m.m_refs k m.m_rootItem) (row : Int) (q : XrefPtr)
    (hq : m.childOf .root row = some q) : m.parent (some q) = none := by
  simp only [CrossReferenceTreeModel.childOf, XrefRoot.child, Option.map_eq_some'] at hq
  obtain ⟨e, he, rfl⟩ := hq
  have hmem : (e.1, e.2) ∈ m.m_rootItem.m_refs.entries := nth?_mem _ _ _ he
  have hfind := StdMap.find?_of_mem _ _ _ hmem
  have hl := (h e.1 e.2 hfind).parent_root
  simp only [CrossReferenceTreeModel.parent, CrossReferenceTreeModel.parentOf, hfind,
    XrefItem.parent, hl]

theorem parent_childOf_category (m : CrossReferenceTreeModel) (k : Nat)
    (h : RootLinked m.m_refs k m.m_rootItem) (ord : Int) (row : Int) (q : XrefPtr)
    (hq : m.childOf (.category ord) row = some q) :
    m.parent (some q) = some (.category ord) := by
  simp only [CrossReferenceTreeModel.childOf] at hq
  cases hc : m.m_rootItem.m_refs.find? ord with
  | none => simp [hc] at hq
  | some cat =>
    have hl := h ord cat hc
    simp only [hc] at hq
    cases cat with
    | code c =>
      simp only [XrefCategory.child, XrefCodeReferences.child, Option.map_eq_some'] at hq
      obtain ⟨e, he, rfl⟩ := hq
      have hmem : (e.1, e.2) ∈ c.m_refs.entries := nth?_mem _ _ _ he
      have hfind := StdMap.find?_of_mem _ _ _ hmem
      have hf := (hl.2 e.1 e.2 hfind).1
      simp only [CrossReferenceTreeModel.parent, CrossReferenceTreeModel.parentOf,
        CrossReferenceTreeModel.functionAt, hc, hfind, XrefItem.parent, hf]
    | data d =>
      simp only [XrefCategory.child, XrefDataReferences.child, Option.map_eq_some'] at hq
      obtain ⟨j, hj, rfl⟩ := hq
      have hp := (hl.2 j (nth?_mem _ _ _ hj)).2
      simp only [CrossReferenceTreeModel.parent, parentOf_item_of_parentAt m j _ hp]

theorem parent_childOf_function (m : CrossReferenceTreeModel) (k : Nat)
    (h : RootLinked m.m_refs k m.m_rootItem) (ord : Int) (f : FunctionRef) (row : Int)
    (q : XrefPtr) (hq : m.childOf (.function ord f) row = some q) :
    m.parent (some q) = some (.function ord f) := by
  simp only [CrossReferenceTreeModel.childOf, CrossReferenceTreeModel.functionAt] at hq
  cases hc : m.m_rootItem.m_refs.find? ord with
  | none => simp [hc] at hq
  | some cat =>
    have hl := h ord cat hc
    simp only [hc] at hq
    cases cat with
    | data d => simp at hq
    | code c =>
      simp only at hq
      cases hf : c.m_refs.find? f with
      | none => simp [hf] at hq
      | some fh =>
        simp only [hf, XrefFunctionHeader.child, Option.map_eq_some'] at hq
        obtain ⟨j, hj, rfl⟩ := hq
        have hp := ((hl.2 f fh hf).2 j (nth?_mem _ _ _ hj)).2
        simp only [CrossReferenceTreeModel.parent, parentOf_item_of_parentAt m j _ hp]

theorem roundtrip_of_linked (m : CrossReferenceTreeModel) (k : Nat)
    (h : RootLinked m.m_refs k m.m_rootItem) (row col : Int) (p : QModelIndex)
    (hp : p ≠ some XrefPtr.root) (hv : (m.index row col p).isValid = true) :
    m.parent (m.index row col p) = p := by
  obtain ⟨q, hq⟩ := Option.isSome_iff_exists.mp hv
  rw [hq]
  cases p with
  | none => exact parent_childOf_root m k h row q hq
  | some x =>
    cases x with
    | root => exact absurd rfl hp
    | category ord => exact parent_childOf_category m k h ord row q hq
    | function ord f => exact parent_childOf_function m k h ord f row q hq
    | item j =>
      simp only [CrossReferenceTreeModel.index, CrossReferenceTreeModel.childOf] at hq
      cases hj : m.m_refs[j]? with
      | none => simp [hj] at hq
      | some it => simp [hj, XrefItem.child] at hq

theorem childOf_ne_root (m : CrossReferenceTreeModel) (x : XrefPtr) (row : Int) :
    m.childOf x row ≠ some XrefPtr.root := by
  intro hq
  cases x with
  | root =>
    simp only [CrossReferenceTreeModel.childOf, XrefRoot.child, Option.map_eq_some'] at hq
    obtain ⟨e, _, he⟩ := hq
    cases he
  | category ord =>
    simp only [CrossReferenceTreeModel.childOf] at hq
    cases hc : m.m_rootItem.m_refs.find? ord with
    | none => simp [hc] at hq
    | some cat =>
      cases cat with
      | code c =>
        simp only [hc, XrefCategory.child, XrefCodeReferences.child,
          Option.map_eq_some'] at hq
        obtain ⟨e, _, he⟩ := hq
        cases he
      | data d =>
        simp only [hc, XrefCategory.child, XrefDataReferences.child,
          Option.map_eq_some'] at hq
        obtain ⟨e, _, he⟩ := hq
        cases he
  | function ord f =>
    simp only [CrossReferenceTreeModel.childOf] at hq
    cases hf : m.functionAt ord f with
    | none => simp [hf] at hq
    | some fh =>
      simp only [hf, XrefFunctionHeader.child, Option.map_eq_some'] at hq
      obtain ⟨e, _, he⟩ := hq
      cases he
  | item j =>
    simp only [CrossReferenceTreeModel.childOf] at hq
    cases hj : m.m_refs[j]? with
    | none => simp [hj] at hq
    | some it => simp [hj, XrefItem.child] at hq

theorem index_ne_root (m : CrossReferenceTreeModel) (row col : Int) (p : QModelIndex) :
    m.index row col p ≠ some XrefPtr.root := by
  cases p with
  | none => exact childOf_ne_root m .root row
  | some x => exact childOf_ne_root m x row

theorem setModelData_linked (pol : CategoryPolicy) (old : CrossReferenceTreeModel)
    (L : List XrefItem) :
    RootLinked (CrossReferenceTreeModel.setModelData pol old L).m_refs L.length
      (CrossReferenceTreeModel.setModelData pol old L).m_rootItem :=
  appendFirst_linked pol L L.length (Nat.le_refl _)

/-! ### The scenario of the specification -/

/-- Scenario of section 8: the tree built from the three sample items has two
top-level categories, the code category has one function group (A) with two
children, and the data category has one leaf directly under it. -/
theorem scenario_shape :
    (CrossReferenceTreeModel.setModelData defaultPolicy CrossReferenceTreeModel.init
      scenarioList).rows =
      [XrefPtr.category 0, XrefPtr.item 2,
       XrefPtr.category 1, XrefPtr.function 1 funcA, XrefPtr.item 0, XrefPtr.item 1] ∧
    (CrossReferenceTreeModel.setModelData defaultPolicy CrossReferenceTreeModel.init
      scenarioList).m_rootItem.childCount = 2 ∧
    (CrossReferenceTreeModel.setModelData defaultPolicy CrossReferenceTreeModel.init
      scenarioList).m_rootItem.m_refs.entries.map (fun e => e.2.childCount) = [1, 1] ∧
    ((CrossReferenceTreeModel.setModelData defaultPolicy CrossReferenceTreeModel.init
      scenarioList).functionAt 1 funcA).map XrefFunctionHeader.childCount = some 2 := by
  refine ⟨by decide, by decide, by decide, by decide⟩

/-- Scenario of section 8, traversal: from the first leaf, nextValidIndex
goes through the data item, crosses into the code category and its function
group, and ends with the invalid handle. The order is the display order of the
tree, which is not the order of the flat list. -/
theorem scenario_traversal :
    (List.range 5).map (fun k =>
      ((CrossReferenceTreeModel.setModelData defaultPolicy CrossReferenceTreeModel.init
        scenarioList).nextValidIndex)^[k]
        (CrossReferenceTreeModel.setModelData defaultPolicy CrossReferenceTreeModel.init
          scenarioList).firstLeaf) =
      [some (XrefPtr.item 2), some (XrefPtr.item 0), some (XrefPtr.item 1), none, none] := by
  decide

/-! ### Claims -/

/-- C1: index/parent round trip. In every hierarchy built by setModelData,
for every parent handle p other than a handle on the root node itself (the
root is addressed by the invalid handle, and index never returns a handle on
it) and every row and column for which index(row, col, p) is a valid handle,
parent(index(row, col, p)) is p. -/
theorem index_parent_roundtrip (pol : CategoryPolicy) (old : CrossReferenceTreeModel)
    (L : List XrefItem) (row col : Int) (p : QModelIndex)
    (hp : p ≠ some XrefPtr.root)
    (hv : ((CrossReferenceTreeModel.setModelData pol old L).index row col p).isValid = true) :
    (CrossReferenceTreeModel.setModelData pol old L).parent
      ((CrossReferenceTreeModel.setModelData pol old L).index row col p) = p ∧
    (CrossReferenceTreeModel.setModelData pol old L).index row col p ≠ some XrefPtr.root :=
  ⟨roundtrip_of_linked _ L.length (setModelData_linked pol old L) row col p hp hv,
    index_ne_root _ row col p⟩

/-- C1 at the scenario of the specification: under the code category (key 1)
row 0 is the function group of A, whose parent is the code category again. -/
theorem index_parent_roundtrip_witness :
    (some (XrefPtr.category 1) : QModelIndex) ≠ some XrefPtr.root ∧
    ((CrossReferenceTreeModel.setModelData defaultPolicy CrossReferenceTreeModel.init
      scenarioList).index 0 0 (some (XrefPtr.category 1))).isValid = true ∧
    (CrossReferenceTreeModel.setModelData defaultPolicy CrossReferenceTreeModel.init
      scenarioList).index 0 0 (some (XrefPtr.category 1)) = some (XrefPtr.function 1 funcA) ∧
    (CrossReferenceTreeModel.setModelData defaultPolicy CrossReferenceTreeModel.init
      scenarioList).parent
      ((CrossReferenceTreeModel.setModelData defaultPolicy CrossReferenceTreeModel.init
        scenarioList).index 0 0 (some (XrefPtr.category 1))) = some (XrefPtr.category 1) :=
  ⟨by decide, by decide, by decide,
    (index_parent_roundtrip defaultPolicy CrossReferenceTreeModel.init scenarioList 0 0
      (some (XrefPtr.category 1)) (by decide) (by decide)).1⟩

/-- C2: leaf conservation. The tree built from a flat list L holds every item
of L exactly once as a leaf, so it has exactly |L| leaves, the items keep
their fields, and the childCount() of all function headers plus the
childCount() of all data category nodes add up to |L|. -/
theorem leaf_conservation (pol : CategoryPolicy) (old : CrossReferenceTreeModel)
    (L : List XrefItem) :
    (CrossReferenceTreeModel.setModelData pol old L).leafRows.Perm
      ((List.range L.length).map XrefPtr.item) ∧
    (CrossReferenceTreeModel.setModelData pol old L).leafRows.length = L.length ∧
    (CrossReferenceTreeModel.setModelData pol old L).m_refs.map clearParent =
      L.map clearParent ∧
    (((CrossReferenceTreeModel.setModelData pol old L).m_rootItem.functionHeaders.map
        XrefFunctionHeader.childCount).sum +
      ((CrossReferenceTreeModel.setModelData pol old L).m_rootItem.dataCategories.map
        XrefDataReferences.childCount).sum = (L.length : Int)) := by
  refine ⟨setModelData_leafRows_perm pol old L, setModelData_leafRows_length pol old L,
    appendFirst_clearParent pol L L.length, ?_⟩
  rw [root_childCount_sum]
  have h := setModelData_leafRows_length pol old L
  rw [leafRows_eq, List.length_map] at h
  rw [h]

/-- C5: leaf traversal. In the tree built from a flat list L, the k-th
application of nextValidIndex from the first leaf is the k-th leaf row of the
display order for k below |L| and the invalid handle from k = |L| on; the leaf
rows are the items of L, each exactly once, and the leaves of every group
follow one another in the order of L. -/
theorem nextValidIndex_visits_every_leaf (pol : CategoryPolicy)
    (old : CrossReferenceTreeModel) (L : List XrefItem) :
    (∀ k, ((CrossReferenceTreeModel.setModelData pol old L).nextValidIndex)^[k]
        (CrossReferenceTreeModel.setModelData pol old L).firstLeaf =
      (CrossReferenceTreeModel.setModelData pol old L).leafRows[k]?) ∧
    (CrossReferenceTreeModel.setModelData pol old L).leafRows.Perm
      ((List.range L.length).map XrefPtr.item) ∧
    (∀ k, k < L.length →
      (((CrossReferenceTreeModel.setModelData pol old L).nextValidIndex)^[k]
        (CrossReferenceTreeModel.setModelData pol old L).firstLeaf).isValid = true) ∧
    (∀ k, L.length ≤ k →
      ((CrossReferenceTreeModel.setModelData pol old L).nextValidIndex)^[k]
        (CrossReferenceTreeModel.setModelData pol old L).firstLeaf = none) ∧
    (CrossReferenceTreeModel.setModelData pol old L).leafRows =
      (CrossReferenceTreeModel.setModelData pol old L).m_rootItem.groups.flatten.map
        XrefPtr.item ∧
    GroupsInOrder L.length (CrossReferenceTreeModel.setModelData pol old L).m_rootItem.groups := by
  have hit := iterate_nextValidIndex (CrossReferenceTreeModel.setModelData pol old L)
    (setModelData_leafRows_nodup pol old L)
  have hlen := setModelData_leafRows_length pol old L
  refine ⟨hit, setModelData_leafRows_perm pol old L, ?_, ?_, leafRows_eq _,
    (appendFirst_groups pol L L.length (Nat.le_refl _)).2⟩
  · intro k hk
    rw [hit k, List.getElem?_eq_getElem (by rw [hlen]; exact hk)]
    rfl
  · intro k hk
    rw [hit k]
    exact List.getElem?_eq_none_iff.mpr (by rw [hlen]; exact hk)

/-- C9: childCount() of a grouping node is the number of entries of its own
child collection: the items of a function group and of a data category, the
distinct function keys of a code category and the distinct category ordinals
of the root. For a code category that is the number of function groups and
not the number of leaf items: the sample category has one group, two leaves
and childCount 1. -/
theorem childCount_is_collection_size (fh : XrefFunctionHeader) (d : XrefDataReferences)
    (c : XrefCodeReferences) (r : XrefRoot) :
    fh.childCount = (fh.m_refs.length : Int) ∧
    d.childCount = (d.m_refs.length : Int) ∧
    c.childCount = (c.m_refs.keys.toFinset.card : Int) ∧
    c.childCount = (c.m_refs.entries.length : Int) ∧
    r.childCount = (r.m_refs.keys.toFinset.card : Int) ∧
    r.childCount = (r.m_refs.entries.length : Int) ∧
    (sampleCodeCategory.childCount = 1 ∧
      (XrefCategory.code sampleCodeCategory).groups.flatten.length = 2) := by
  refine ⟨rfl, rfl, ?_, rfl, ?_, rfl, by decide, by decide⟩
  · simp only [XrefCodeReferences.childCount, StdMap.size, StdMap.keys]
    rw [List.toFinset_card_of_nodup c.m_refs.nodupKeys, List.length_map]
  · simp only [XrefRoot.childCount, StdMap.size, StdMap.keys]
    rw [List.toFinset_card_of_nodup r.m_refs.nodupKeys, List.length_map]

/-- C3: for every state of the table model and every parent handle, rowCount
is the number of items of the backing list and columnCount is 4, the columns
being Direction = 0, Address = 1, Function = 2, Preview = 3. -/
theorem table_dimensions (m : CrossReferenceTableModel) (p : QModelIndex) :
    m.rowCount p = (m.m_refs.length : Int) ∧ m.columnCount p = 4 ∧
    ColumnHeaders.Direction.toInt = 0 ∧ ColumnHeaders.Address.toInt = 1 ∧
    ColumnHeaders.Function.toInt = 2 ∧ ColumnHeaders.Preview.toInt = 3 ∧
    ∀ c : ColumnHeaders, 0 ≤ c.toInt ∧ c.toInt < m.columnCount p := by
  refine ⟨rfl, rfl, rfl, rfl, rfl, rfl, ?_⟩
  intro c
  cases c <;> simp [ColumnHeaders.toInt, CrossReferenceTableModel.columnCount]

/-- C4: a leaf item reports zero children and has no child at any index,
whatever its fields are. -/
theorem leaf_item_has_no_children (it : XrefItem) :
    it.childCount = 0 ∧ ∀ i : Int, it.child i = none :=
  ⟨rfl, fun _ => rfl⟩

/-- C6 (as stated, refuted): on the fresh item, whose cached size 0 is not
its byte size 4, size() leaves the cached field at 0 (and returns 0), so the
read neither computes nor stores anything. -/
theorem size_not_computed_on_first_access :
    (XrefItem.size freshItem).2.m_size = 0 ∧ (XrefItem.size freshItem).1 = 0 ∧
    ¬ SizeComputedOnFirstAccess (fun _ => 4) freshItem := by
  refine ⟨rfl, rfl, ?_⟩
  intro h
  have h4 := (h (by decide)).2.1
  revert h4
  decide

/-- C6 (amended): size() returns the cached size field without computing
anything and changes no field of the item, so a later call returns the same
value; the cached field is written by setSize(s), after which size() returns
s. -/
theorem size_reads_cached_field (it : XrefItem) (s : Int) :
    XrefItem.size it = (it.m_size, it) ∧
    (XrefItem.size (XrefItem.size it).2).1 = (XrefItem.size it).1 ∧
    (XrefItem.size (XrefItem.setSize it s).2).1 = s :=
  ⟨rfl, rfl, rfl⟩

/-- C7 (failing input): on a function header whose function reference is
null, addr() dereferences the null reference and returns no address; with a
function behind the reference it returns the start of that function. -/
theorem function_header_addr_null_fails (hdr : XrefHeader) (refs : List Nat) :
    XrefFunctionHeader.addr ⟨hdr, refs, none⟩ = none ∧
    ∀ f : FunctionObj, XrefFunctionHeader.addr ⟨hdr, refs, some f⟩ = some f.start :=
  ⟨rfl, fun _ => rfl⟩

/-- C8: setSize(s) changes only the cached size (afterwards size() is s),
setParent(p) changes only the parent back-reference (afterwards parent() is
p), in both cases func(), arch(), addr(), type() and direction() return what
they returned before, and the accessors direction(), func(), arch(), addr(),
type() and parent() change no field. -/
theorem item_immutable_except_size_and_parent (it : XrefItem) (s : Int)
    (p : Option XrefPtr) :
    ((XrefItem.setSize it s).2 = { it with m_size := s } ∧
      (XrefItem.size (XrefItem.setSize it s).2).1 = s) ∧
    ((XrefItem.setParent it p).2 = { it with m_parentItem := p } ∧
      (XrefItem.parent (XrefItem.setParent it p).2).1 = p) ∧
    ((XrefItem.func (XrefItem.setSize it s).2).1 = (XrefItem.func it).1 ∧
      (XrefItem.arch (XrefItem.setSize it s).2).1 = (XrefItem.arch it).1 ∧
      (XrefItem.addr (XrefItem.setSize it s).2).1 = (XrefItem.addr it).1 ∧
      (XrefItem.type (XrefItem.setSize it s).2).1 = (XrefItem.type it).1 ∧
      (XrefItem.direction (XrefItem.setSize it s).2).1 = (XrefItem.direction it).1 ∧
      (XrefItem.parent (XrefItem.setSize it s).2).1 = (XrefItem.parent it).1) ∧
    ((XrefItem.func (XrefItem.setParent it p).2).1 = (XrefItem.func it).1 ∧
      (XrefItem.arch (XrefItem.setParent it p).2).1 = (XrefItem.arch it).1 ∧
      (XrefItem.addr (XrefItem.setParent it p).2).1 = (XrefItem.addr it).1 ∧
      (XrefItem.type (XrefItem.setParent it p).2).1 = (XrefItem.type it).1 ∧
      (XrefItem.direction (XrefItem.setParent it p).2).1 = (XrefItem.direction it).1 ∧
      (XrefItem.size (XrefItem.setParent it p).2).1 = (XrefItem.size it).1) ∧
    ((XrefItem.direction it).2 = it ∧ (XrefItem.func it).2 = it ∧
      (XrefItem.arch it).2 = it ∧ (XrefItem.addr it).2 = it ∧
      (XrefItem.type it).2 = it ∧ (XrefItem.parent it).2 = it) :=
  ⟨⟨rfl, rfl⟩, ⟨rfl, rfl⟩, ⟨rfl, rfl, rfl, rfl, rfl, rfl⟩, ⟨rfl, rfl, rfl, rfl, rfl, rfl⟩,
    ⟨rfl, rfl, rfl, rfl, rfl, rfl⟩⟩

/-- C10: the table model is flat: parent(i) is the invalid handle and
hasChildren(i) is false for every handle i and every backing list. -/
theorem table_model_is_flat (m : CrossReferenceTableModel) (i : QModelIndex) :
    m.parent i = none ∧ m.hasChildren i = false :=
  ⟨rfl, rfl⟩

end XrefList
